import Mathlib

/-!
# Verification of `novel-splitter/scripts/split_novel.py`

Shallow embedding of the core of the novel chapter splitter:
`parse_chinese_number`, `detect_encoding`, `detect_chapter_pattern`
and `split_chapters`.  Python strings are modelled as `List Char`
(Python 3 strings are sequences of Unicode code points), Python `int`
as `Nat` (all arithmetic in the program is on non-negative integers
and uses only `+` and `*`), `None`-or-value results as `Option`, and
raised exceptions as `Except`.  The Python regex engine and the codec
library are external to the program; where a claim depends only on how
the program *uses* them they are passed in as oracle functions, and
where a claim depends on the concrete built-in patterns those seven
regexes are translated into explicit recognizers.
-/

namespace SplitNovel

/-- Python whitespace predicate used by `str.strip` and the `\s` regex
class (restricted to the ASCII whitespace characters; the program's
inputs and the claims do not involve non-ASCII whitespace). -/
def pyIsSpace (c : Char) : Bool :=
  c = ' ' || c = '\t' || c = '\n' || c = '\r' || c = '\x0b' || c = '\x0c'

/-- Python `str.strip()`: remove whitespace from both ends. -/
def pyStrip (l : List Char) : List Char :=
  ((l.dropWhile pyIsSpace).reverse.dropWhile pyIsSpace).reverse

/-- a digit character, for `str(int)`. -/
def digitCh (n : Nat) : Char := Char.ofNat (48 + n)

/-- Python `str(n)` for a non-negative `int`: decimal notation. -/
def pyStr (n : Nat) : List Char :=
  if _h : n < 10 then [digitCh n]
  else pyStr (n / 10) ++ [digitCh (n % 10)]
decreasing_by exact Nat.div_lt_self (by omega) (by omega)

/-- Python `str.zfill(w)`: pad with `'0'` on the left to width `w`,
keeping a leading sign character in front of the padding. -/
def pyZfill (s : List Char) (w : Nat) : List Char :=
  if w ≤ s.length then s
  else
    match s with
    | [] => List.replicate w '0'
    | c :: rest =>
        if c = '+' || c = '-' then
          c :: (List.replicate (w - s.length) '0' ++ rest)
        else
          List.replicate (w - s.length) '0' ++ (c :: rest)

/-! ## `parse_chinese_number` (source lines 25–59) -/

/-- The `chinese_to_arabic` dictionary (source lines 30–34). -/
def chinese_to_arabic (c : Char) : Option Nat :=
  if c = '零' then some 0
  else if c = '一' then some 1
  else if c = '二' then some 2
  else if c = '三' then some 3
  else if c = '四' then some 4
  else if c = '五' then some 5
  else if c = '六' then some 6
  else if c = '七' then some 7
  else if c = '八' then some 8
  else if c = '九' then some 9
  else if c = '十' then some 10
  else if c = '百' then some 100
  else if c = '千' then some 1000
  else none

/-- One iteration of the character loop of `parse_chinese_number`
(source lines 40–54).  State is `(result, temp)`. -/
def pcnStep (s : Nat × Nat) (c : Char) : Nat × Nat :=
  let (result, temp) := s
  match chinese_to_arabic c with
  | some value =>
      if value ≥ 100 then (result, temp * value)
      else if value ≥ 10 then
        (result, if temp ≠ 0 then temp * 10 + value else value)
      else (result, temp + value)
  | none =>
      if c = '万' then (result + temp * 10000, 0)
      else if c = '亿' then (result + temp * 100000000, 0)
      else (result, temp)

/-- The `(result, temp)` pair after scanning the whole string. -/
def pcnScan (text : List Char) : Nat × Nat :=
  text.foldl pcnStep (0, 0)

/-- `parse_chinese_number` (source lines 25–59).  The `try`/`except`
wrapper never fires: the loop body performs only dictionary lookups
guarded by membership tests and `+`/`*` arithmetic, so the embedding
is the body itself. -/
def parse_chinese_number (text : List Char) : Option Nat :=
  if text = [] then none
  else
    let (result, temp) := pcnScan text
    let result := result + temp
    if result > 0 then some result else none

/-- Characters that the loop of `parse_chinese_number` reacts to:
dictionary characters plus the two group separators. -/
def pcnRecognized (c : Char) : Bool :=
  (chinese_to_arabic c).isSome || c = '万' || c = '亿'

/-! ### Claim-side restatement of the accumulation rule (claim C2)

`claimStep` is written from the claim's words, to be compared with
`pcnStep`, which is translated from the source: a digit-valued
character adds its value to the accumulator; a hundred or thousand
multiplier multiplies the accumulator; a ten multiplier sets the
accumulator to `acc*10 + 10` when it is non-zero and to `10` when it
is zero; a group separator flushes `result += acc * group_value` and
resets the accumulator; any other character leaves the state alone. -/

/-- One step of the accumulation rule exactly as claim C2 states it. -/
def claimStep (s : Nat × Nat) (c : Char) : Nat × Nat :=
  let (result, acc) := s
  if c = '零' then (result, acc + 0)
  else if c = '一' then (result, acc + 1)
  else if c = '二' then (result, acc + 2)
  else if c = '三' then (result, acc + 3)
  else if c = '四' then (result, acc + 4)
  else if c = '五' then (result, acc + 5)
  else if c = '六' then (result, acc + 6)
  else if c = '七' then (result, acc + 7)
  else if c = '八' then (result, acc + 8)
  else if c = '九' then (result, acc + 9)
  else if c = '十' then (result, if acc ≠ 0 then acc * 10 + 10 else 10)
  else if c = '百' then (result, acc * 100)
  else if c = '千' then (result, acc * 1000)
  else if c = '万' then (result + acc * 10000, 0)
  else if c = '亿' then (result + acc * 100000000, 0)
  else (result, acc)

/-- The scan of the accumulation rule as claim C2 states it. -/
def claimScan (text : List Char) : Nat × Nat :=
  text.foldl claimStep (0, 0)

/-- The whole normalizer as claim C2 (with the surrounding checks of
claim C9) states it: after the scan, `result += acc`; empty input and
a non-positive final result yield `none`. -/
def normalizeClaim (text : List Char) : Option Nat :=
  if text = [] then none
  else
    let (result, acc) := claimScan text
    if result + acc > 0 then some (result + acc) else none

/-! ## `detect_encoding` (source lines 62–74) -/

/-- The fixed candidate list (source line 64). -/
def encoding_candidates : List (List Char) :=
  ["utf-8".data, "utf-8-sig".data, "gbk".data, "gb2312".data,
   "gb18030".data, "big5".data, "shift_jis".data]

/-- The legacy East-Asian members of the candidate list. -/
def legacy_encodings : List (List Char) :=
  ["gbk".data, "gb2312".data, "gb18030".data, "big5".data, "shift_jis".data]

/-- `detect_encoding` (source lines 62–74).  Whether a candidate codec
decodes the file's bytes without a `UnicodeDecodeError`/`UnicodeError`
is a fact about the external codec library, so it is passed in as the
oracle `decodes`; `data` is the file's byte content.  The `for` loop
with its `try`/`except continue` returns the first candidate that
decodes the whole file, and the fallback `'utf-8'` when none does. -/
def detect_encoding (decodes : List Char → List Nat → Bool)
    (data : List Nat) : List Char :=
  match encoding_candidates.find? (fun e => decodes e data) with
  | some e => e
  | none => "utf-8".data

/-! ## The heading pattern library (source lines 14–22) and
`detect_chapter_pattern` (source lines 77–86)

Each of the seven regexes of `DEFAULT_PATTERNS` is translated into an
explicit recognizer deciding whether the regex matches at the start of
a line (`re.match`).  In every regex the character class of a greedy
`+`/`*` repetition is disjoint from the item that follows it, so the
recognizers need no backtracking.  `\d` and `\s` are modelled by their
ASCII parts. -/

/-- The character class `[零一二三四五六七八九十百千]`. -/
def isCnNum (c : Char) : Bool :=
  c = '零' || c = '一' || c = '二' || c = '三' || c = '四' || c = '五' ||
  c = '六' || c = '七' || c = '八' || c = '九' || c = '十' || c = '百' ||
  c = '千'

/-- The `\d` class (ASCII part). -/
def isAsciiDigit (c : Char) : Bool := '0' ≤ c && c ≤ '9'

/-- `^第([零一二三四五六七八九十百千]+)[章卷]` (pattern 0). -/
def matchP0 (l : List Char) : Bool :=
  match l with
  | '第' :: rest =>
      !(rest.takeWhile isCnNum).isEmpty &&
      (match rest.dropWhile isCnNum with
       | c :: _ => c = '章' || c = '卷'
       | [] => false)
  | _ => false

/-- `^第(\d+)[章卷]` (pattern 1). -/
def matchP1 (l : List Char) : Bool :=
  match l with
  | '第' :: rest =>
      !(rest.takeWhile isAsciiDigit).isEmpty &&
      (match rest.dropWhile isAsciiDigit with
       | c :: _ => c = '章' || c = '卷'
       | [] => false)
  | _ => false

/-- `^W\s+(\d+)` for a literal keyword `W`. -/
def matchLatinChapter (word : List Char) (l : List Char) : Bool :=
  if l.take word.length = word then
    let r := l.drop word.length
    !(r.takeWhile pyIsSpace).isEmpty &&
    !((r.dropWhile pyIsSpace).takeWhile isAsciiDigit).isEmpty
  else false

/-- `^Chapter\s+(\d+)` (pattern 2). -/
def matchP2 (l : List Char) : Bool := matchLatinChapter "Chapter".data l

/-- `^chapter\s+(\d+)` (pattern 3). -/
def matchP3 (l : List Char) : Bool := matchLatinChapter "chapter".data l

/-- `^第[0-9零一二三四五六七八九十百千]+章.*$` (pattern 4; the trailing
`.*$` always matches within a single line). -/
def matchP4 (l : List Char) : Bool :=
  match l with
  | '第' :: rest =>
      !(rest.takeWhile (fun c => isAsciiDigit c || isCnNum c)).isEmpty &&
      (match rest.dropWhile (fun c => isAsciiDigit c || isCnNum c) with
       | c :: _ => c = '章'
       | [] => false)
  | _ => false

/-- `^\s*\d+\.\s+` (pattern 5). -/
def matchP5 (l : List Char) : Bool :=
  let r := l.dropWhile pyIsSpace
  !(r.takeWhile isAsciiDigit).isEmpty &&
  (match r.dropWhile isAsciiDigit with
   | '.' :: r3 => !(r3.takeWhile pyIsSpace).isEmpty
   | _ => false)

/-- `^\s*\d+\s+` (pattern 6). -/
def matchP6 (l : List Char) : Bool :=
  let r := l.dropWhile pyIsSpace
  !(r.takeWhile isAsciiDigit).isEmpty &&
  !((r.dropWhile isAsciiDigit).takeWhile pyIsSpace).isEmpty

/-- Whether `DEFAULT_PATTERNS[i]` matches at the start of `l`. -/
def reMatch : Nat → List Char → Bool
  | 0, l => matchP0 l
  | 1, l => matchP1 l
  | 2, l => matchP2 l
  | 3, l => matchP3 l
  | 4, l => matchP4 l
  | 5, l => matchP5 l
  | 6, l => matchP6 l
  | _ + 7, _ => false

/-- The regex source strings of `DEFAULT_PATTERNS` (source lines
14–22), used as the identity of a compiled built-in pattern. -/
def DEFAULT_PATTERNS_SRC : List (List Char) :=
  ["^第([零一二三四五六七八九十百千]+)[章卷]".data,
   "^第(\\d+)[章卷]".data,
   "^Chapter\\s+(\\d+)".data,
   "^chapter\\s+(\\d+)".data,
   "^第[0-9零一二三四五六七八九十百千]+章.*$".data,
   "^\\s*\\d+\\.\\s+".data,
   "^\\s*\\d+\\s+".data]

/-- Python `str.split('\n')`. -/
def splitNl : List Char → List (List Char)
  | [] => [[]]
  | c :: rest =>
      if c = '\n' then [] :: splitNl rest
      else
        match splitNl rest with
        | [] => [[c]]
        | l :: ls => (c :: l) :: ls

/-- `detect_chapter_pattern` (source lines 77–86): scan the first 100
lines; for each pattern in priority order, for each line, test the
pattern against the start of the stripped line; return the index of
the first pattern that matches some line, `none` when no pattern
matches (Python's `(None, '')`). -/
def detect_chapter_pattern (content : List Char) : Option Nat :=
  let lines := (splitNl content).take 100
  (List.range 7).find? fun i => lines.any fun line => reMatch i (pyStrip line)

/-! ## The segmentation loop of `split_chapters` (source lines 144–196)

A `re.Match` produced by `chapter_pattern.finditer(content)` is
modelled by its start offset, its matched text (`group(0)`) and its
first capture (`group(1)`; `none` models a pattern whose
`match.groups()` is empty).  The regex engine producing the match list
is external; the loop consuming it is embedded verbatim.  `RMatch` is
the view of a match on runs that complete: a match whose
`match.groups()` is non-empty but whose `group(1)` is `None` aborts
the whole run before any segment record exists (see `PyMatch` and the
fallible loop in the `split_chapters` section), so segment-level
claims quantify over `RMatch` lists. -/

/-- A match of the compiled heading pattern, as the loop uses it. -/
structure RMatch where
  start : Nat
  group0 : List Char
  group1 : Option (List Char)
deriving DecidableEq

/-- One entry of the `chapters` list (source lines 176–182; `stop`
models the dictionary key `'end'`, a reserved word in Lean). -/
structure Chapter where
  start : Nat
  stop : Nat
  title : List Char
  filename : List Char
  chapter_num : List Char
deriving DecidableEq

/-- Not a line break (the scan class of `rfind`-based title search). -/
def notNl (c : Char) : Bool := !(c = '\n')

/-- Models Python `str.rfind('\n')` on `l`: the highest index holding
`'\n'`, or `-1` when there is none (the highest such index is the
length minus one minus the length of the trailing run of
non-newlines). -/
def pyRfindNl (l : List Char) : Int :=
  if l.contains '\n' then
    (l.length : Int) - 1 - ((l.reverse.takeWhile notNl).length : Int)
  else -1

/-- `line_start` (source line 153) for the prefix `pre` of the content
before the match: `content.rfind('\n', 0, start) + 1` when the prefix
holds a line break, else `0`. -/
def lineStartOf (pre : List Char) : Nat :=
  if pre.contains '\n' then (pyRfindNl pre + 1).toNat else 0

/-- `re.match(r'^第', s)` as a recognizer (source line 169). -/
def startsDi (l : List Char) : Bool :=
  match l with
  | '第' :: _ => true
  | _ => false

/-- `re.match(r'^第\d+', s)` as a recognizer (source line 169). -/
def startsDiDigit (l : List Char) : Bool :=
  match l with
  | '第' :: c :: _ => isAsciiDigit c
  | _ => false

/-- The body of the `for i, match in enumerate(chapter_matches)` loop
(source lines 147–182) for one match: `stop` is the next match's start
offset or the document length, `numSoFar` is `len(chapters)` at entry.
The sanitized title `safe_title` (source lines 164–174) is computed
and then never used by the appended record, exactly as in the source. -/
def mkChapter (content : List Char) (m : RMatch) (stop : Nat)
    (numSoFar : Nat) : Chapter :=
  let start := m.start
  let chapter_title := pyStrip m.group0
  let chapter_num : List Char :=
    match m.group1 with
    | some g => g
    | none => pyStr (numSoFar + 1)
  let line_start := lineStartOf (content.take start)
  let full_title_line0 := pyStrip ((content.take start).drop line_start)
  let full_title_line :=
    if full_title_line0 = [] then chapter_title else full_title_line0
  let safe_title0 := (pyStrip (full_title_line.map fun c =>
    if c = '<' || c = '>' || c = ':' || c = '"' || c = '/' ||
       c = '\\' || c = '|' || c = '?' || c = '*' then '_' else c)).take 50
  let _safe_title :=
    if startsDi full_title_line && !startsDiDigit safe_title0 then
      match parse_chinese_number chapter_num with
      | some num => "第".data ++ pyStr num ++ "章".data
      | none => "第".data ++ chapter_num ++ "章".data
    else safe_title0
  { start := start
    stop := stop
    title := full_title_line
    filename := "第".data ++ pyZfill chapter_num 4 ++ "章.md".data
    chapter_num := chapter_num }

/-- The per-match loop (source lines 147–182): processes the matches
in order; the chapter of match `i` ends at match `i+1`'s start offset,
or at the document length for the last match. -/
def chaptersLoop (content : List Char) :
    List RMatch → Nat → List Chapter
  | [], _ => []
  | m :: rest, k =>
      let stop :=
        match rest with
        | [] => content.length
        | m2 :: _ => m2.start
      mkChapter content m stop k :: chaptersLoop content rest (k + 1)

/-- `split_chapters`'s chapter construction including the trailing
epilogue check (source lines 144–196): `last_end` is set to
`len(content)` (source line 185), so the `last_end < len(content)`
branch that would append a `'后记/尾声'` segment can never fire. -/
def build_chapters (content : List Char) (ms : List RMatch) :
    List Chapter :=
  let chapters := chaptersLoop content ms 0
  let last_end := content.length
  if last_end < content.length then
    let remaining := pyStrip (content.drop last_end)
    if remaining ≠ [] then
      chapters ++
        [{ start := last_end
           stop := content.length
           title := "后记/尾声".data
           filename := "第".data ++ pyZfill (pyStr (chapters.length + 1)) 4 ++
             "章.md".data
           chapter_num := pyStr (chapters.length + 1) }]
    else chapters
  else chapters

/-- The title computation as claim C7 words it: scan backward from the
match's start offset to the previous line break (or the document start
when there is none), trim the resulting line, and fall back to the
trimmed matched text when that line is empty. -/
def titleClaim (content : List Char) (m : RMatch) : List Char :=
  let lastLine := ((content.take m.start).reverse.takeWhile notNl).reverse
  if pyStrip lastLine = [] then pyStrip m.group0 else pyStrip lastLine

/-- Value of an ASCII digit character. -/
def digitVal (c : Char) : Nat := c.toNat - 48

/-- Value of a decimal digit string. -/
def digitsVal (l : List Char) : Nat :=
  l.foldl (fun a c => a * 10 + digitVal c) 0

/-! ### Claim C8 -/

/-- The end offset of the chapter at the head of the remaining match
list: the next match's start, or the document length. -/
def nextStop (content : List Char) : List RMatch → Nat
  | [] => content.length
  | m2 :: _ => m2.start

/-! ## `split_chapters` top level (source lines 89–219)

The embedding covers the control flow that decides between the fatal
errors and the chapter-writing path.  External collaborators are
passed in as oracles: `compile_err p` is the outcome of
`re.compile(p)` (`some msg` models a raised `re.error msg`), and
`finditer p content` is the match list of the compiled pattern over
the whole document.  Encoding detection and the file read happen
before any failure can occur and only produce `content`, so `content`
is a parameter; output-directory creation and the write loop (source
lines 198–209) are I/O glue whose effect is modelled by the returned
list of written filenames, in write order.

Two behaviours of the source matter here beyond `RMatch`'s reach:
line 132 tests `if custom_pattern:` by Python truthiness, so an empty
custom pattern string falls through to auto-detection; and line 150
sets `chapter_num = match.group(1)` whenever `match.groups()` is
non-empty, which is `None` for an optional capture group that did not
participate, making line 180's `chapter_num.zfill(4)` raise an
uncaught `AttributeError`.  `PyMatch` therefore records the truthiness
of `match.groups()` and the possibly-`None` `group(1)` separately, and
the chapter loop of this section is fallible. -/

/-- A match as `finditer` delivers it to the loop: start offset,
matched text, whether `match.groups()` is non-empty (truthy), and
`group(1)` (`none` models Python `None`, an optional capture group
that did not participate).  `has_groups = false` entails that
`group(1)` is never consulted (line 150 short-circuits). -/
structure PyMatch where
  start : Nat
  group0 : List Char
  has_groups : Bool
  group1 : Option (List Char)
deriving DecidableEq

/-- Restriction of a `PyMatch` to the view the segment claims use:
`group1 = some g` means a captured token, `none` means the running
count is used (no capture consulted). -/
def toRMatch (m : PyMatch) : RMatch :=
  { start := m.start
    group0 := m.group0
    group1 := if m.has_groups then m.group1 else none }

/-- The end offset of the chapter at the head of the remaining match
list (source lines 159–162). -/
def nextStopPy (content : List Char) : List PyMatch → Nat
  | [] => content.length
  | m2 :: _ => m2.start

/-- The fatal errors of `split_chapters`:
`FileNotFoundError` (source line 112), `ValueError` for an invalid
custom pattern carrying the underlying complaint (source line 137),
`ValueError` for detection failure (source line 141), and the
uncaught `AttributeError` from `None.zfill(4)` (source line 180). -/
inductive SplitError
  | fileNotFound (path : List Char)
  | invalidPattern (msg : List Char)
  | detectionFailure
  | attributeError
deriving DecidableEq

/-- The summary dictionary returned on success (source lines
211–219). -/
structure SplitResult where
  pattern_used : List Char
  chapters_found : Nat
  files_created : List (List Char)
deriving DecidableEq

/-- The per-match loop (source lines 147–182) over raw matches.
`chapter_num` is `match.group(1)` when `match.groups()` is truthy and
the running count otherwise (line 150); when it is `None`, building
the `'filename'` entry raises `AttributeError` at `None.zfill(4)`
(line 180) and the loop aborts with nothing appended — the result
`none` models that raise.  Everything computed before that point in
the iteration is pure, so on the non-`None` path the appended record
is exactly `mkChapter` of the restricted match. -/
def chaptersLoopE (content : List Char) :
    List PyMatch → Nat → Option (List Chapter)
  | [], _ => some []
  | m :: rest, k =>
      let chapter_num? : Option (List Char) :=
        if m.has_groups then m.group1 else some (pyStr (k + 1))
      match chapter_num? with
      | none => none
      | some _ =>
          match chaptersLoopE content rest (k + 1) with
          | none => none
          | some chs =>
              some
                (mkChapter content (toRMatch m) (nextStopPy content rest) k ::
                  chs)

/-- Chapter construction over raw matches including the dead trailing
epilogue check (source lines 184–196), reachable only when the loop
did not raise. -/
def build_chaptersE (content : List Char) (ms : List PyMatch) :
    Option (List Chapter) :=
  match chaptersLoopE content ms 0 with
  | none => none
  | some chapters =>
      let last_end := content.length
      if last_end < content.length then
        let remaining := pyStrip (content.drop last_end)
        if remaining ≠ [] then
          some (chapters ++
            [{ start := last_end
               stop := content.length
               title := "后记/尾声".data
               filename := "第".data ++
                 pyZfill (pyStr (chapters.length + 1)) 4 ++ "章.md".data
               chapter_num := pyStr (chapters.length + 1) }])
        else some chapters
      else some chapters

/-- The detection arm of the pattern choice (source lines 139–141). -/
def detectOrFail (content : List Char) : Except SplitError (List Char) :=
  match detect_chapter_pattern content with
  | some i => Except.ok (DEFAULT_PATTERNS_SRC.getD i [])
  | none => Except.error SplitError.detectionFailure

/-- The pattern choice of `split_chapters` (source lines 131–141).
Line 132 is `if custom_pattern:` — Python truthiness — so the empty
string, like `None`, falls through to auto-detection; only a
non-empty custom pattern is compiled, and a compile failure is
reported with the underlying complaint and no detection fallback. -/
def resolvedPattern (compile_err : List Char → Option (List Char))
    (content : List Char) (custom_pattern : Option (List Char)) :
    Except SplitError (List Char) :=
  match custom_pattern with
  | some p =>
      if p = [] then detectOrFail content
      else
        match compile_err p with
        | some e => Except.error (SplitError.invalidPattern e)
        | none => Except.ok p
  | none => detectOrFail content

/-- The tail of `split_chapters` after a pattern is available (source
lines 144–219): find all matches, build the chapters (which can raise
`AttributeError`), then write one file per chapter. -/
def splitWithPattern (finditer : List Char → List Char → List PyMatch)
    (content : List Char) (p : List Char) :
    Except SplitError SplitResult × List (List Char) :=
  let ms := finditer p content
  match build_chaptersE content ms with
  | none => (Except.error SplitError.attributeError, [])
  | some chapters =>
      let files := chapters.map Chapter.filename
      (Except.ok
        { pattern_used := p
          chapters_found := chapters.length
          files_created := files }, files)

/-- `split_chapters` (source lines 89–219): validate the input path,
choose the pattern (compile the truthy custom pattern, else
auto-detect), then segment and write.  The second component is the
list of chapter files written during the run. -/
def split_chapters (compile_err : List Char → Option (List Char))
    (finditer : List Char → List Char → List PyMatch)
    (input_exists : Bool) (input_file : List Char) (content : List Char)
    (custom_pattern : Option (List Char)) :
    Except SplitError SplitResult × List (List Char) :=
  if !input_exists then
    (Except.error (SplitError.fileNotFound input_file), [])
  else
    match resolvedPattern compile_err content custom_pattern with
    | Except.error e => (Except.error e, [])
    | Except.ok p => splitWithPattern finditer content p

lemma pcnStep_eq_claimStep (s : Nat × Nat) (c : Char) :
    pcnStep s c = claimStep s c := by
  obtain ⟨r, t⟩ := s
  by_cases h0 : c = '零'; · subst h0; rfl
  by_cases h1 : c = '一'; · subst h1; rfl
  by_cases h2 : c = '二'; · subst h2; rfl
  by_cases h3 : c = '三'; · subst h3; rfl
  by_cases h4 : c = '四'; · subst h4; rfl
  by_cases h5 : c = '五'; · subst h5; rfl
  by_cases h6 : c = '六'; · subst h6; rfl
  by_cases h7 : c = '七'; · subst h7; rfl
  by_cases h8 : c = '八'; · subst h8; rfl
  by_cases h9 : c = '九'; · subst h9; rfl
  by_cases h10 : c = '十'; · subst h10; rfl
  by_cases h11 : c = '百'; · subst h11; rfl
  by_cases h12 : c = '千'; · subst h12; rfl
  by_cases h13 : c = '万'; · subst h13; rfl
  by_cases h14 : c = '亿'; · subst h14; rfl
  simp [pcnStep, claimStep, chinese_to_arabic,
    h0, h1, h2, h3, h4, h5, h6, h7, h8, h9, h10, h11, h12, h13, h14]

lemma pcnStep_fun_eq : pcnStep = claimStep :=
  funext fun s => funext fun c => pcnStep_eq_claimStep s c

/-- C2: `parse_chinese_number` implements exactly the single-accumulator
rule the claim describes (digits add, hundred/thousand multiply, ten
maps `acc` to `acc*10+10` or `10`, the group separators flush into
`result`, and `result += acc` after the scan), with
`normalize("十二") = 12` and `normalize("一百二十三") = 1033`, the value
this exact rule produces rather than the positional reading 123. -/
theorem C2_normalize_accumulation_rule :
    (∀ text : List Char, parse_chinese_number text = normalizeClaim text) ∧
    parse_chinese_number "十二".data = some 12 ∧
    parse_chinese_number "一百二十三".data = some 1033 := by
  refine ⟨fun text => ?_, rfl, rfl⟩
  simp only [parse_chinese_number, normalizeClaim, pcnScan, claimScan,
    pcnStep_fun_eq]

/-- C9: the embedded `parse_chinese_number` is a total function (the
Python `try`/`except` maps any internal error to `None`; in the
embedding no step can fail): it returns either a strictly positive
integer or `none`, and it returns `none` exactly when the input is
empty or the accumulated final result is zero (`≤ 0` over the
non-negative integers involved); in particular `normalize("") = none`
and `normalize("零") = none`. -/
theorem C9_normalize_none_iff :
    (∀ text : List Char,
        (parse_chinese_number text = none ↔
          text = [] ∨ (pcnScan text).1 + (pcnScan text).2 = 0) ∧
        (∀ n, parse_chinese_number text = some n → 0 < n)) ∧
    parse_chinese_number "".data = none ∧
    parse_chinese_number "零".data = none := by
  refine ⟨fun text => ?_, rfl, rfl⟩
  by_cases h : text = []
  · subst h; simp [parse_chinese_number]
  · rcases hp : pcnScan text with ⟨r, t⟩
    by_cases h2 : r + t > 0
    · simp [parse_chinese_number, h, hp, h2]
      omega
    · simp [parse_chinese_number, h, hp, h2]
      omega

/-- Applies C9 at the concrete input `"十二"`. -/
theorem C9_normalize_none_iff_witness : 0 < 12 :=
  (C9_normalize_none_iff.1 "十二".data).2 12 rfl

lemma pcnStep_unrecognized (s : Nat × Nat) (c : Char)
    (h : pcnRecognized c = false) : pcnStep s c = s := by
  obtain ⟨r, t⟩ := s
  simp only [pcnRecognized, Bool.or_eq_false_iff, decide_eq_false_iff_not] at h
  obtain ⟨⟨h1, h2⟩, h3⟩ := h
  rw [Bool.eq_false_iff, Ne, Option.isSome_iff_exists] at h1
  have h1' : chinese_to_arabic c = none := by
    cases hc : chinese_to_arabic c with
    | none => rfl
    | some v => exact absurd ⟨v, hc⟩ h1
  simp [pcnStep, h1', h2, h3]

lemma pcnScan_go_filter (text : List Char) :
    ∀ s : Nat × Nat,
      text.foldl pcnStep s = (text.filter pcnRecognized).foldl pcnStep s := by
  induction text with
  | nil => intro s; rfl
  | cons c rest ih =>
      intro s
      by_cases h : pcnRecognized c
      · simp [List.filter_cons, h, List.foldl_cons, ih]
      · simp only [Bool.not_eq_true] at h
        simp [List.filter_cons, h, List.foldl_cons,
          pcnStep_unrecognized s c h, ih]

/-- C10: the scan of `parse_chinese_number` ignores every character
that is neither in the dictionary nor a group separator, so inputs of
only unrecognized characters return `none`; in particular the
Arabic-digit string `"12"` and the bare multiplier `"百"` (which only
multiplies the zero accumulator) return `none`. -/
theorem C10_unrecognized_skipped :
    (∀ text : List Char,
        pcnScan text = pcnScan (text.filter pcnRecognized)) ∧
    (∀ text : List Char, (∀ c ∈ text, pcnRecognized c = false) →
        parse_chinese_number text = none) ∧
    parse_chinese_number "12".data = none ∧
    parse_chinese_number "百".data = none := by
  refine ⟨fun text => pcnScan_go_filter text (0, 0), fun text h => ?_, rfl, rfl⟩
  have hfil : text.filter pcnRecognized = [] := by
    rw [List.filter_eq_nil_iff]
    intro a ha
    simp [h a ha]
  have hscan : pcnScan text = (0, 0) := by
    rw [show pcnScan text = pcnScan (text.filter pcnRecognized) from
      pcnScan_go_filter text (0, 0), hfil]
    rfl
  by_cases he : text = []
  · simp [parse_chinese_number, he]
  · simp [parse_chinese_number, he, hscan]

/-- Applies C10 at the concrete all-unrecognized input `"ab"`. -/
theorem C10_unrecognized_skipped_witness :
    parse_chinese_number "ab".data = none :=
  C10_unrecognized_skipped.2.1 "ab".data (by decide)

lemma find?_first {α : Type} (p : α → Bool) :
    ∀ (l : List α) (i : Nat) (a : α), l[i]? = some a →
      (∀ j, j < i → ∀ b, l[j]? = some b → p b = false) →
      p a = true → l.find? p = some a := by
  intro l
  induction l with
  | nil => intro i a h; simp at h
  | cons x xs ih =>
      intro i a ha hbefore hpa
      cases i with
      | zero =>
          simp only [List.getElem?_cons_zero, Option.some.injEq] at ha
          subst ha
          exact List.find?_cons_of_pos xs hpa
      | succ n =>
          have hx : p x = false := hbefore 0 (Nat.succ_pos n) x (by simp)
          rw [List.find?_cons_of_neg xs (by simp [hx])]
          exact ih n a (by simpa using ha)
            (fun j hj b hb => hbefore (j + 1) (by omega) b (by simpa using hb))
            hpa

lemma detect_encoding_first (decodes : List Char → List Nat → Bool)
    (data : List Nat) (i : Nat) (e : List Char)
    (hi : encoding_candidates[i]? = some e) (hd : decodes e data = true)
    (hb : ∀ j, j < i → ∀ e2, encoding_candidates[j]? = some e2 →
      decodes e2 data = false) :
    detect_encoding decodes data = e := by
  unfold detect_encoding
  rw [find?_first (fun e => decodes e data) encoding_candidates i e hi hb hd]

/-- C6: encoding detection returns the first candidate of the fixed
ordered list `utf-8, utf-8-sig, gbk, gb2312, gb18030, big5, shift_jis`
under which the whole file decodes, falls back to `utf-8` when every
candidate fails, is deterministic in the input bytes, and returns the
legacy East-Asian encoding when that is the only candidate that
decodes the bytes. -/
theorem C6_detect_encoding_first_success :
    ∀ (decodes : List Char → List Nat → Bool) (data : List Nat),
      ((∀ e ∈ encoding_candidates, decodes e data = false) →
        detect_encoding decodes data = "utf-8".data) ∧
      (∀ (i : Nat) (e : List Char), encoding_candidates[i]? = some e →
          decodes e data = true →
          (∀ j, j < i → ∀ e2, encoding_candidates[j]? = some e2 →
            decodes e2 data = false) →
          detect_encoding decodes data = e) ∧
      (∀ data2 : List Nat, data = data2 →
        detect_encoding decodes data = detect_encoding decodes data2) ∧
      (∀ e ∈ legacy_encodings, decodes e data = true →
          (∀ e2 ∈ encoding_candidates, e2 ≠ e → decodes e2 data = false) →
          detect_encoding decodes data = e) := by
  intro decodes data
  refine ⟨fun hall => ?_, detect_encoding_first decodes data,
    fun data2 h => by rw [h], fun e he hdec honly => ?_⟩
  · unfold detect_encoding
    rw [List.find?_eq_none.mpr (fun x hx => by simp [hall x hx])]
  · have hmem : e ∈ encoding_candidates := by fin_cases he <;> decide
    obtain ⟨i, hget⟩ := List.mem_iff_getElem?.mp hmem
    refine detect_encoding_first decodes data i e hget hdec ?_
    intro j hj e2 he2
    by_cases heq : e2 = e
    · subst heq
      have hjlen : j < encoding_candidates.length := by
        obtain ⟨h, -⟩ := List.getElem?_eq_some.mp he2
        exact h
      have hji := @List.getElem?_inj (List Char) j i encoding_candidates hjlen
        (by decide) (he2.trans hget.symm)
      omega
    · exact honly e2 (List.mem_iff_getElem?.mpr ⟨j, he2⟩) heq

/-- Applies C6 with a concrete oracle under which only `gbk` decodes
the bytes `[0x81, 0x40]`. -/
theorem C6_detect_encoding_first_success_witness :
    detect_encoding (fun e _ => decide (e = "gbk".data)) [129, 64] =
      "gbk".data :=
  (C6_detect_encoding_first_success
      (fun e _ => decide (e = "gbk".data)) [129, 64]).2.2.2
    "gbk".data (by decide) (by decide) (by decide)

lemma splitNl_ne_nil : ∀ l : List Char, splitNl l ≠ [] := by
  intro l
  cases l with
  | nil => simp [splitNl]
  | cons c rest =>
      simp only [splitNl]
      by_cases h : c = '\n'
      · simp [h]
      · simp only [h, if_false]
        cases splitNl rest <;> simp

lemma splitNl_cons_ne (c : Char) (rest : List Char) (h : ¬c = '\n') :
    splitNl (c :: rest) =
      (c :: (splitNl rest).headI) :: (splitNl rest).tail := by
  simp only [splitNl, h, if_false]
  rcases hr : splitNl rest with - | ⟨l, ls⟩
  · exact absurd hr (splitNl_ne_nil rest)
  · simp

lemma splitNl_append_nl (a b : List Char) :
    splitNl (a ++ '\n' :: b) = splitNl a ++ splitNl b := by
  induction a with
  | nil => simp [splitNl]
  | cons c rest ih =>
      by_cases h : c = '\n'
      · simp [splitNl, h, ih]
      · rw [List.cons_append, splitNl_cons_ne c _ h, splitNl_cons_ne c rest h,
          ih]
        rcases hr : splitNl rest with - | ⟨l, ls⟩
        · exact absurd hr (splitNl_ne_nil rest)
        · simp

/-- C5: pattern detection looks only at the first 100 lines; it
returns the index of the highest-priority pattern matching the start
of at least one stripped scanned line (pattern priority dominates line
position), `none` when no pattern matches any scanned line, and for a
document whose first line is `"Chapter 1"` it returns index 2, the
case-sensitive Latin pattern, not the lowercase (3) or loose (4)
families. -/
theorem C5_detect_chapter_pattern :
    (∀ content : List Char,
        (detect_chapter_pattern content = none ↔
          ∀ i, i < 7 → ∀ line ∈ (splitNl content).take 100,
            reMatch i (pyStrip line) = false) ∧
        (∀ i : Nat, i < 7 →
          (∃ line ∈ (splitNl content).take 100,
            reMatch i (pyStrip line) = true) →
          (∀ j, j < i → ∀ line ∈ (splitNl content).take 100,
            reMatch j (pyStrip line) = false) →
          detect_chapter_pattern content = some i)) ∧
    (∀ content extra : List Char, 100 ≤ (splitNl content).length →
        detect_chapter_pattern (content ++ '\n' :: extra) =
          detect_chapter_pattern content) ∧
    detect_chapter_pattern "Chapter 1\nhello world".data = some 2 := by
  refine ⟨fun content => ⟨?_, ?_⟩, fun content extra h => ?_, by decide⟩
  · unfold detect_chapter_pattern
    rw [List.find?_eq_none]
    constructor
    · intro h i hi line hline
      have := h i (List.mem_range.mpr hi)
      rw [List.any_eq_true] at this
      by_contra hc
      exact this ⟨line, hline, by simpa using hc⟩
    · intro h i hi
      rw [List.mem_range] at hi
      simp only [Bool.not_eq_true, List.any_eq_false]
      intro line hline
      exact h i hi line hline
  · intro i hi ⟨line, hline, hmatch⟩ hbefore
    unfold detect_chapter_pattern
    have hget : (List.range 7)[i]? = some i := by
      rw [List.getElem?_range hi]
    refine find?_first _ (List.range 7) i i hget ?_ ?_
    · intro j hj b hb
      have hjlt : j < 7 := by
        have := List.getElem?_eq_some.mp hb
        simpa using this.1
      rw [List.getElem?_range hjlt] at hb
      cases hb
      simp only [List.any_eq_false]
      intro l hl
      simp [hbefore j hj l hl]
    · rw [List.any_eq_true]
      exact ⟨line, hline, hmatch⟩
  · unfold detect_chapter_pattern
    rw [splitNl_append_nl, List.take_append_of_le_length h]

/-- Applies the 100-line locality part of C5: a heading line appended
after 100 lines does not change the detection result. -/
theorem C5_detect_chapter_pattern_witness :
    detect_chapter_pattern
        (List.replicate 99 '\n' ++ '\n' :: "第一章".data) =
      detect_chapter_pattern (List.replicate 99 '\n') :=
  C5_detect_chapter_pattern.2.1 (List.replicate 99 '\n') "第一章".data
    (by decide)

lemma build_chapters_eq_loop (content : List Char) (ms : List RMatch) :
    build_chapters content ms = chaptersLoop content ms 0 := by
  simp [build_chapters]

lemma chaptersLoop_length (content : List Char) :
    ∀ (ms : List RMatch) (k : Nat),
      (chaptersLoop content ms k).length = ms.length := by
  intro ms
  induction ms with
  | nil => intro k; rfl
  | cons m rest ih => intro k; simp [chaptersLoop, ih]

lemma chaptersLoop_getElem? (content : List Char) :
    ∀ (ms : List RMatch) (k i : Nat),
      (chaptersLoop content ms k)[i]? =
        (ms[i]?).map fun m =>
          mkChapter content m
            (match ms[i + 1]? with
             | some m2 => m2.start
             | none => content.length)
            (k + i) := by
  intro ms
  induction ms with
  | nil => intro k i; simp [chaptersLoop]
  | cons m rest ih =>
      intro k i
      cases i with
      | zero =>
          cases rest with
          | nil => simp [chaptersLoop]
          | cons m2 r2 => simp [chaptersLoop]
      | succ n =>
          simp only [chaptersLoop, List.getElem?_cons_succ]
          rw [ih (k + 1) n]
          have harith : k + 1 + n = k + (n + 1) := by omega
          rw [harith]

lemma mkChapter_start (c : List Char) (m : RMatch) (st k : Nat) :
    (mkChapter c m st k).start = m.start := rfl

lemma mkChapter_stop (c : List Char) (m : RMatch) (st k : Nat) :
    (mkChapter c m st k).stop = st := rfl

lemma mkChapter_chapter_num (c : List Char) (m : RMatch) (st k : Nat) :
    (mkChapter c m st k).chapter_num =
      (match m.group1 with
       | some g => g
       | none => pyStr (k + 1)) := rfl

lemma mkChapter_filename (c : List Char) (m : RMatch) (st k : Nat) :
    (mkChapter c m st k).filename =
      "第".data ++ pyZfill (mkChapter c m st k).chapter_num 4 ++
        "章.md".data := rfl

lemma mkChapter_title (c : List Char) (m : RMatch) (st k : Nat) :
    (mkChapter c m st k).title =
      (if pyStrip ((c.take m.start).drop (lineStartOf (c.take m.start))) = []
       then pyStrip m.group0
       else pyStrip ((c.take m.start).drop (lineStartOf (c.take m.start)))) :=
  rfl

/-- C1: for a non-empty match list (in order and within bounds, as
`finditer` produces it), segmentation yields exactly one segment per
match in match order — no epilogue segment is ever appended — with
segment `i` starting at match `i`'s offset and ending at match `i+1`'s
offset (the document length for the last match); hence consecutive
segments share their boundary, the first segment starts at the first
match, the last segment ends at the document length, and every segment
has `start ≤ stop` (no gaps, no overlaps). -/
theorem C1_segmentation_boundaries :
    ∀ (content : List Char) (ms : List RMatch),
      ms ≠ [] →
      List.Chain' (fun a b => a.start ≤ b.start) ms →
      (∀ m ∈ ms, m.start ≤ content.length) →
      (build_chapters content ms).length = ms.length ∧
      (∀ i : Nat, ((build_chapters content ms)[i]?).map Chapter.start =
        (ms[i]?).map RMatch.start) ∧
      (∀ i : Nat, i + 1 < ms.length →
        ((build_chapters content ms)[i]?).map Chapter.stop =
          (ms[i + 1]?).map RMatch.start) ∧
      ((build_chapters content ms)[ms.length - 1]?).map Chapter.stop =
        some content.length ∧
      (∀ i : Nat, i + 1 < (build_chapters content ms).length →
        ((build_chapters content ms)[i]?).map Chapter.stop =
          ((build_chapters content ms)[i + 1]?).map Chapter.start) ∧
      ((build_chapters content ms)[0]?).map Chapter.start =
        (ms[0]?).map RMatch.start ∧
      (∀ s ∈ build_chapters content ms, s.start ≤ s.stop) := by
  intro content ms hne hchain hbound
  rw [build_chapters_eq_loop]
  have hlen := chaptersLoop_length content ms 0
  have hget := chaptersLoop_getElem? content ms
  have hpos : 0 < ms.length := List.length_pos.mpr hne
  have hstarts : ∀ i : Nat,
      ((chaptersLoop content ms 0)[i]?).map Chapter.start =
        (ms[i]?).map RMatch.start := by
    intro i
    rw [hget 0 i]
    cases hm : ms[i]? <;> simp [mkChapter_start]
  have hstopnext : ∀ i : Nat, i + 1 < ms.length →
      ((chaptersLoop content ms 0)[i]?).map Chapter.stop =
        (ms[i + 1]?).map RMatch.start := by
    intro i hi
    rw [hget 0 i, List.getElem?_eq_getElem (by omega : i < ms.length),
      List.getElem?_eq_getElem hi]
    simp [mkChapter_stop]
  have hlast : ((chaptersLoop content ms 0)[ms.length - 1]?).map Chapter.stop =
      some content.length := by
    rw [hget 0 (ms.length - 1),
      List.getElem?_eq_getElem (by omega : ms.length - 1 < ms.length),
      Nat.sub_add_cancel hpos, List.getElem?_eq_none (Nat.le_refl _)]
    simp [mkChapter_stop]
  refine ⟨hlen, hstarts, hstopnext, hlast, ?_, hstarts 0, ?_⟩
  · intro i hi
    rw [hlen] at hi
    rw [hstopnext i hi, hstarts (i + 1)]
  · intro s hs
    obtain ⟨i, hi⟩ := List.mem_iff_getElem?.mp hs
    rw [hget 0 i] at hi
    cases hm : ms[i]? with
    | none => rw [hm] at hi; simp at hi
    | some m =>
        rw [hm] at hi
        simp only [Option.map_some', Option.some.injEq] at hi
        have hilt : i < ms.length := by
          obtain ⟨h, -⟩ := List.getElem?_eq_some.mp hm
          exact h
        subst hi
        rw [mkChapter_start, mkChapter_stop]
        cases hm2 : ms[i + 1]? with
        | none =>
            exact hbound m (List.mem_iff_getElem?.mpr ⟨i, hm⟩)
        | some m2 =>
            have hi2 : i + 1 < ms.length := by
              obtain ⟨h, -⟩ := List.getElem?_eq_some.mp hm2
              exact h
            have hcg := List.chain'_iff_get.mp hchain i (by omega)
            have hmi : ms.get ⟨i, hilt⟩ = m := by
              have := List.getElem?_eq_getElem hilt
              rw [hm] at this
              simpa using this.symm
            have hmi2 : ms.get ⟨i + 1, hi2⟩ = m2 := by
              have := List.getElem?_eq_getElem hi2
              rw [hm2] at this
              simpa using this.symm
            rw [hmi, hmi2] at hcg
            exact hcg

/-- Applies C1 to a two-chapter document split by the Chinese-numeral
heading pattern. -/
theorem C1_segmentation_boundaries_witness :
    (build_chapters "第一章\nAAA\n第二章\nBBB".data
        [⟨0, "第一章".data, some "一".data⟩,
         ⟨8, "第二章".data, some "二".data⟩]).length = 2 :=
  (C1_segmentation_boundaries "第一章\nAAA\n第二章\nBBB".data
      [⟨0, "第一章".data, some "一".data⟩,
       ⟨8, "第二章".data, some "二".data⟩]
      (by decide) (by simp [List.chain'_cons]) (by decide)).1

/-! ## The segment title (claim C7) -/

lemma lineStartOf_eq (l : List Char) :
    lineStartOf l = l.length - (l.reverse.takeWhile notNl).length := by
  unfold lineStartOf pyRfindNl
  by_cases h : l.contains '\n'
  · simp only [h, if_true]
    have hk : (l.reverse.takeWhile notNl).length ≤ l.length := by
      have := (List.takeWhile_prefix (l := l.reverse) notNl).length_le
      simpa using this
    omega
  · simp only [h, if_false]
    have hmem : ('\n' : Char) ∉ l := by
      intro hc
      exact h (List.elem_iff.mpr hc)
    have hall : l.reverse.takeWhile notNl = l.reverse := by
      rw [List.takeWhile_eq_self_iff]
      intro x hx
      have : x ∈ l := List.mem_reverse.mp hx
      simp only [notNl, Bool.not_eq_true']
      rw [decide_eq_false_iff_not]
      intro heq
      exact hmem (heq ▸ this)
    rw [hall]
    simp

lemma drop_lineStartOf (l : List Char) :
    l.drop (lineStartOf l) = (l.reverse.takeWhile notNl).reverse := by
  have hp := List.takeWhile_prefix (l := l.reverse) notNl
  have h2 : (l.reverse.takeWhile notNl).reverse <:+ l.reverse.reverse :=
    List.reverse_suffix.mpr hp
  rw [List.reverse_reverse] at h2
  rw [List.suffix_iff_eq_drop] at h2
  rw [h2]
  congr 1
  rw [lineStartOf_eq]
  simp

/-- C7: every segment's display title equals the claim's backward-scan
computation: the whitespace-trimmed text between the previous line
break (or the document start) and the match's start offset, falling
back to the trimmed matched text when that is empty. -/
theorem C7_segment_titles :
    ∀ (content : List Char) (ms : List RMatch) (i : Nat),
      ((build_chapters content ms)[i]?).map Chapter.title =
        (ms[i]?).map (titleClaim content) := by
  intro content ms i
  rw [build_chapters_eq_loop, chaptersLoop_getElem? content ms 0 i]
  cases hm : ms[i]? with
  | none => simp
  | some m =>
      simp only [Option.map_some', Option.some.injEq]
      rw [mkChapter_title]
      unfold titleClaim
      rw [← drop_lineStartOf (content.take m.start)]

/-! ## Filenames (claims C3 and C8) -/

lemma loop_filename_getElem? (content : List Char) (ms : List RMatch)
    (i : Nat) :
    ((chaptersLoop content ms 0)[i]?).map Chapter.filename =
      (ms[i]?).map fun m =>
        "第".data ++
          pyZfill (match m.group1 with
            | some g => g
            | none => pyStr (i + 1)) 4 ++ "章.md".data := by
  rw [chaptersLoop_getElem? content ms 0 i]
  cases hm : ms[i]? with
  | none => simp
  | some m =>
      simp only [Option.map_some', Option.some.injEq]
      rw [mkChapter_filename, mkChapter_chapter_num]
      simp

/-- C3: segment `i`'s filename is exactly the fixed prefix `第`, the
raw index token for segment `i` zero-padded on the left to width 4,
then `章.md`; the token is the raw first capture (never passed through
`parse_chinese_number`), the sanitized/truncated title never reaches
the filename (the filename list does not depend on the document text
at all), and with no capturing group the token of segment `i` is the
1-based running count `i+1`. -/
theorem C3_filenames :
    ∀ (content : List Char) (ms : List RMatch),
      (∀ i : Nat, ((build_chapters content ms)[i]?).map Chapter.filename =
        (ms[i]?).map fun m =>
          "第".data ++
            pyZfill (match m.group1 with
              | some g => g
              | none => pyStr (i + 1)) 4 ++ "章.md".data) ∧
      (∀ content2 : List Char,
        (build_chapters content ms).map Chapter.filename =
          (build_chapters content2 ms).map Chapter.filename) ∧
      ((∀ m ∈ ms, m.group1 = none) →
        ∀ i : Nat, ((build_chapters content ms)[i]?).map Chapter.filename =
          (ms[i]?).map fun _ =>
            "第".data ++ pyZfill (pyStr (i + 1)) 4 ++ "章.md".data) := by
  intro content ms
  refine ⟨?_, ?_, ?_⟩
  · intro i
    rw [build_chapters_eq_loop]
    exact loop_filename_getElem? content ms i
  · intro content2
    apply List.ext_getElem?
    intro i
    rw [List.getElem?_map, List.getElem?_map, build_chapters_eq_loop,
      build_chapters_eq_loop, loop_filename_getElem? content ms i,
      loop_filename_getElem? content2 ms i]
  · intro hnone i
    rw [build_chapters_eq_loop, loop_filename_getElem? content ms i]
    cases hm : ms[i]? with
    | none => simp
    | some m =>
        have : m.group1 = none :=
          hnone m (List.mem_iff_getElem?.mpr ⟨i, hm⟩)
        simp [this]

/-- Applies C3's no-capturing-group part: the first two running-count
filenames are `第0001章.md` and `第0002章.md`. -/
theorem C3_filenames_witness :
    ((build_chapters "AAABBB".data
        [⟨0, "A".data, none⟩, ⟨3, "B".data, none⟩])[0]?).map
          Chapter.filename = some "第0001章.md".data ∧
    ((build_chapters "AAABBB".data
        [⟨0, "A".data, none⟩, ⟨3, "B".data, none⟩])[1]?).map
          Chapter.filename = some "第0002章.md".data := by
  constructor
  · rw [(C3_filenames "AAABBB".data
      [⟨0, "A".data, none⟩, ⟨3, "B".data, none⟩]).2.2 (by decide) 0]
    simp [pyStr]
    decide
  · rw [(C3_filenames "AAABBB".data
      [⟨0, "A".data, none⟩, ⟨3, "B".data, none⟩]).2.2 (by decide) 1]
    simp [pyStr]
    decide

/-! ### Decimal-numeral facts for the running-count filenames -/

lemma pyStr_lt (n : Nat) (h : n < 10) : pyStr n = [digitCh n] := by
  rw [pyStr]
  simp [h]

lemma pyStr_ge (n : Nat) (h : ¬n < 10) :
    pyStr n = pyStr (n / 10) ++ [digitCh (n % 10)] := by
  rw [pyStr]
  simp [h]

lemma digitsVal_append_singleton (l : List Char) (c : Char) :
    digitsVal (l ++ [c]) = digitsVal l * 10 + digitVal c := by
  unfold digitsVal
  rw [List.foldl_append]
  rfl

lemma digitVal_digitCh (d : Nat) (h : d < 10) : digitVal (digitCh d) = d := by
  interval_cases d <;> decide

lemma digitsVal_pyStr (n : Nat) : digitsVal (pyStr n) = n := by
  induction n using Nat.strong_induction_on with
  | _ n ih =>
      by_cases h : n < 10
      · rw [pyStr_lt n h]
        simp [digitsVal, digitVal_digitCh n h]
      · rw [pyStr_ge n h, digitsVal_append_singleton,
          ih (n / 10) (Nat.div_lt_self (by omega) (by omega)),
          digitVal_digitCh _ (Nat.mod_lt n (by omega))]
        omega

lemma pyStr_injective : Function.Injective pyStr := by
  intro a b h
  have := congrArg digitsVal h
  rwa [digitsVal_pyStr, digitsVal_pyStr] at this

lemma pyStr_head (n : Nat) :
    ∃ c rest, pyStr n = c :: rest ∧ isAsciiDigit c = true ∧
      (1 ≤ n → ¬c = '0') := by
  induction n using Nat.strong_induction_on with
  | _ n ih =>
      by_cases h : n < 10
      · refine ⟨digitCh n, [], pyStr_lt n h, ?_, ?_⟩
        · interval_cases n <;> decide
        · intro h1
          interval_cases n <;> decide
      · obtain ⟨c, rest, hc, hdig, hz⟩ :=
          ih (n / 10) (Nat.div_lt_self (by omega) (by omega))
        refine ⟨c, rest ++ [digitCh (n % 10)], ?_, hdig,
          fun _ => hz (by omega)⟩
        rw [pyStr_ge n h, hc]
        rfl

lemma isAsciiDigit_not_sign (c : Char) (h : isAsciiDigit c = true) :
    ¬(c = '+' ∨ c = '-') := by
  rintro (h1 | h1) <;> (subst h1; simp [isAsciiDigit] at h)

lemma pyZfill_of_unsigned (s : List Char) (w : Nat) (c : Char)
    (rest : List Char) (hs : s = c :: rest)
    (hc : ¬(c = '+' ∨ c = '-')) :
    pyZfill s w = List.replicate (w - s.length) '0' ++ s := by
  subst hs
  unfold pyZfill
  simp only [List.length_cons]
  by_cases hw : w ≤ rest.length + 1
  · rw [if_pos hw, Nat.sub_eq_zero_of_le hw]
    simp
  · have hcb : (decide (c = '+') || decide (c = '-')) = false := by
      simp only [Bool.or_eq_false_iff, decide_eq_false_iff_not]
      exact ⟨fun h => hc (Or.inl h), fun h => hc (Or.inr h)⟩
    rw [if_neg hw, hcb]
    simp

lemma replicate_zero_append_inj :
    ∀ (k1 k2 : Nat) (c d : Char) (s t : List Char),
      ¬c = '0' → ¬d = '0' →
      List.replicate k1 '0' ++ (c :: s) =
        List.replicate k2 '0' ++ (d :: t) →
      c :: s = d :: t := by
  intro k1
  induction k1 with
  | zero =>
      intro k2 c d s t hc hd h
      cases k2 with
      | zero => simpa using h
      | succ j =>
          rw [List.replicate_succ] at h
          simp only [List.replicate, List.nil_append, List.cons_append,
            List.cons.injEq] at h
          exact absurd h.1 hc
  | succ i ih =>
      intro k2 c d s t hc hd h
      cases k2 with
      | zero =>
          rw [List.replicate_succ] at h
          simp only [List.replicate, List.nil_append, List.cons_append,
            List.cons.injEq] at h
          exact absurd h.1.symm hd
      | succ j =>
          rw [List.replicate_succ, List.replicate_succ] at h
          simp only [List.cons_append, List.cons.injEq, true_and] at h
          exact ih j c d s t hc hd h

lemma pyZfill_pyStr_inj (w : Nat) (a b : Nat) (ha : 1 ≤ a) (hb : 1 ≤ b)
    (h : pyZfill (pyStr a) w = pyZfill (pyStr b) w) : a = b := by
  obtain ⟨c, s, hsa, hdiga, hza⟩ := pyStr_head a
  obtain ⟨d, t, hsb, hdigb, hzb⟩ := pyStr_head b
  rw [pyZfill_of_unsigned (pyStr a) w c s hsa (isAsciiDigit_not_sign c hdiga),
    pyZfill_of_unsigned (pyStr b) w d t hsb
      (isAsciiDigit_not_sign d hdigb), hsa, hsb] at h
  have hcons := replicate_zero_append_inj _ _ c d s t (hza ha) (hzb hb) h
  apply pyStr_injective
  rw [hsa, hsb, hcons]

lemma chaptersLoop_cons (content : List Char) (m : RMatch)
    (rest : List RMatch) (k : Nat) :
    chaptersLoop content (m :: rest) k =
      mkChapter content m (nextStop content rest) k ::
        chaptersLoop content rest (k + 1) := by
  cases rest <;> rfl

lemma loop_filename_shape (content : List Char) :
    ∀ (ms : List RMatch) (k : Nat), ∀ ch ∈ chaptersLoop content ms k,
      ch.filename =
        "第".data ++ pyZfill ch.chapter_num 4 ++ "章.md".data := by
  intro ms
  induction ms with
  | nil => intro k ch h; simp [chaptersLoop] at h
  | cons m rest ih =>
      intro k ch h
      rw [chaptersLoop_cons] at h
      rcases List.mem_cons.mp h with h1 | h2
      · subst h1
        rw [mkChapter_filename, mkChapter_chapter_num]
      · exact ih (k + 1) ch h2

lemma loop_filename_map_range (content : List Char) (ms : List RMatch)
    (h : ∀ m ∈ ms, m.group1 = none) :
    (chaptersLoop content ms 0).map Chapter.filename =
      (List.range ms.length).map fun i =>
        "第".data ++ pyZfill (pyStr (i + 1)) 4 ++ "章.md".data := by
  apply List.ext_getElem?
  intro i
  rw [List.getElem?_map, List.getElem?_map, loop_filename_getElem?]
  by_cases hi : i < ms.length
  · rw [List.getElem?_range hi, List.getElem?_eq_getElem hi]
    have hg := h (ms[i]) (List.getElem_mem hi)
    simp [hg]
  · rw [List.getElem?_eq_none (by omega),
      List.getElem?_eq_none (by simpa using hi)]
    simp

/-- C8 counterexample: with the Chinese-numeral heading pattern on a
document that repeats the heading `第一章`, segmentation produces two
distinct segments (different start offsets) whose filenames are both
`第000一章.md`, so filenames are not collision-free for every document
and pattern. -/
theorem C8_counterexample_duplicate_tokens :
    ((build_chapters "第一章\nx\n第一章\ny".data
        [⟨0, "第一章".data, some "一".data⟩,
         ⟨6, "第一章".data, some "一".data⟩])[0]?).map Chapter.filename =
      ((build_chapters "第一章\nx\n第一章\ny".data
        [⟨0, "第一章".data, some "一".data⟩,
         ⟨6, "第一章".data, some "一".data⟩])[1]?).map Chapter.filename ∧
    ((build_chapters "第一章\nx\n第一章\ny".data
        [⟨0, "第一章".data, some "一".data⟩,
         ⟨6, "第一章".data, some "一".data⟩])[0]?).map Chapter.start ≠
      ((build_chapters "第一章\nx\n第一章\ny".data
        [⟨0, "第一章".data, some "一".data⟩,
         ⟨6, "第一章".data, some "一".data⟩])[1]?).map Chapter.start ∧
    ((build_chapters "第一章\nx\n第一章\ny".data
        [⟨0, "第一章".data, some "一".data⟩,
         ⟨6, "第一章".data, some "一".data⟩])[0]?).map Chapter.filename =
      some "第000一章.md".data := by
  refine ⟨?_, ?_, ?_⟩ <;> decide

/-- C8 (amended): within a single run, the filenames of distinct
segments are pairwise distinct whenever their zero-padded index tokens
are pairwise distinct; in particular, when the pattern has no
capturing group (running-count indexing) the filenames are always
pairwise distinct.  With a capturing group, two matches capturing the
same token collide. -/
theorem C8_amended_filename_distinctness :
    ∀ (content : List Char) (ms : List RMatch),
      (List.Pairwise (fun a b : Chapter =>
          pyZfill a.chapter_num 4 ≠ pyZfill b.chapter_num 4)
          (build_chapters content ms) →
        List.Pairwise (fun a b : Chapter => a.filename ≠ b.filename)
          (build_chapters content ms)) ∧
      ((∀ m ∈ ms, m.group1 = none) →
        List.Pairwise (fun a b : Chapter => a.filename ≠ b.filename)
          (build_chapters content ms)) := by
  intro content ms
  constructor
  · intro h
    rw [build_chapters_eq_loop] at h ⊢
    refine List.Pairwise.imp_of_mem ?_ h
    intro a b ha hb hne heq
    apply hne
    rw [loop_filename_shape content ms 0 a ha,
      loop_filename_shape content ms 0 b hb] at heq
    have h1 : "第".data ++ pyZfill a.chapter_num 4 =
        "第".data ++ pyZfill b.chapter_num 4 :=
      List.append_cancel_right heq
    exact List.append_cancel_left h1
  · intro hnone
    rw [build_chapters_eq_loop]
    rw [← List.pairwise_map (f := Chapter.filename)]
    rw [loop_filename_map_range content ms hnone]
    have hFinj : Function.Injective fun i : Nat =>
        "第".data ++ pyZfill (pyStr (i + 1)) 4 ++ "章.md".data := by
      intro a b hab
      simp only at hab
      have h1 : "第".data ++ pyZfill (pyStr (a + 1)) 4 =
          "第".data ++ pyZfill (pyStr (b + 1)) 4 :=
        List.append_cancel_right hab
      have h2 := List.append_cancel_left h1
      have := pyZfill_pyStr_inj 4 (a + 1) (b + 1) (by omega) (by omega) h2
      omega
    exact List.Nodup.map hFinj (List.nodup_range ms.length)

/-- Applies the running-count part of C8 (amended) to a concrete
two-match run with no capturing group. -/
theorem C8_amended_filename_distinctness_witness :
    List.Pairwise (fun a b : Chapter => a.filename ≠ b.filename)
      (build_chapters "AAABBB".data
        [⟨0, "A".data, none⟩, ⟨3, "B".data, none⟩]) :=
  (C8_amended_filename_distinctness "AAABBB".data
      [⟨0, "A".data, none⟩, ⟨3, "B".data, none⟩]).2 (by decide)

lemma chaptersLoopE_none_iff (content : List Char) :
    ∀ (ms : List PyMatch) (k : Nat),
      chaptersLoopE content ms k = none ↔
        ∃ m ∈ ms, m.has_groups = true ∧ m.group1 = none := by
  intro ms
  induction ms with
  | nil => intro k; simp [chaptersLoopE]
  | cons m rest ih =>
      intro k
      cases hg : m.has_groups with
      | true =>
          cases h1 : m.group1 with
          | none =>
              constructor
              · intro _; exact ⟨m, List.mem_cons_self m rest, hg, h1⟩
              · intro _; simp [chaptersLoopE, hg, h1]
          | some g =>
              have hstep : chaptersLoopE content (m :: rest) k =
                  (match chaptersLoopE content rest (k + 1) with
                   | none => none
                   | some chs =>
                       some (mkChapter content (toRMatch m)
                         (nextStopPy content rest) k :: chs)) := by
                simp [chaptersLoopE, hg, h1]
              rw [hstep]
              cases hr : chaptersLoopE content rest (k + 1) with
              | none =>
                  constructor
                  · intro _
                    obtain ⟨m2, hm2, h2⟩ := (ih (k + 1)).mp hr
                    exact ⟨m2, List.mem_cons_of_mem m hm2, h2⟩
                  · intro _; rfl
              | some chs =>
                  constructor
                  · intro hco; cases hco
                  · rintro ⟨m2, hm2, hg2, h12⟩
                    rcases List.mem_cons.mp hm2 with h | h
                    · subst h; rw [h1] at h12; cases h12
                    · exact absurd ((ih (k + 1)).mpr ⟨m2, h, hg2, h12⟩)
                        (by simp [hr])
      | false =>
          have hstep : chaptersLoopE content (m :: rest) k =
              (match chaptersLoopE content rest (k + 1) with
               | none => none
               | some chs =>
                   some (mkChapter content (toRMatch m)
                     (nextStopPy content rest) k :: chs)) := by
            simp [chaptersLoopE, hg]
          rw [hstep]
          cases hr : chaptersLoopE content rest (k + 1) with
          | none =>
              constructor
              · intro _
                obtain ⟨m2, hm2, h2⟩ := (ih (k + 1)).mp hr
                exact ⟨m2, List.mem_cons_of_mem m hm2, h2⟩
              · intro _; rfl
          | some chs =>
              constructor
              · intro hco; cases hco
              · rintro ⟨m2, hm2, hg2, h12⟩
                rcases List.mem_cons.mp hm2 with h | h
                · subst h; rw [hg] at hg2; cases hg2
                · exact absurd ((ih (k + 1)).mpr ⟨m2, h, hg2, h12⟩)
                    (by simp [hr])

lemma build_chaptersE_eq (content : List Char) (ms : List PyMatch) :
    build_chaptersE content ms = chaptersLoopE content ms 0 := by
  unfold build_chaptersE
  cases chaptersLoopE content ms 0 <;> simp

lemma nextStop_map_toRMatch (content : List Char) (rest : List PyMatch) :
    nextStop content (rest.map toRMatch) = nextStopPy content rest := by
  cases rest <;> rfl

lemma chaptersLoopE_eq_loop (content : List Char) :
    ∀ (ms : List PyMatch) (k : Nat),
      (∀ m ∈ ms, ¬(m.has_groups = true ∧ m.group1 = none)) →
      chaptersLoopE content ms k =
        some (chaptersLoop content (ms.map toRMatch) k) := by
  intro ms
  induction ms with
  | nil => intro k h; simp [chaptersLoopE, chaptersLoop]
  | cons m rest ih =>
      intro k h
      have hm := h m (List.mem_cons_self m rest)
      have hrest : ∀ m2 ∈ rest, ¬(m2.has_groups = true ∧ m2.group1 = none) :=
        fun m2 hm2 => h m2 (List.mem_cons_of_mem m hm2)
      rw [List.map_cons, chaptersLoop_cons, nextStop_map_toRMatch]
      cases hg : m.has_groups with
      | false => simp [chaptersLoopE, hg, ih (k + 1) hrest]
      | true =>
          cases h1 : m.group1 with
          | none => exact absurd ⟨hg, h1⟩ hm
          | some g => simp [chaptersLoopE, hg, h1, ih (k + 1) hrest]

lemma resolvedPattern_compile_err (ce : List Char → Option (List Char))
    (c p e : List Char) (hp : p ≠ []) (hce : ce p = some e) :
    resolvedPattern ce c (some p) =
      Except.error (SplitError.invalidPattern e) := by
  simp [resolvedPattern, hp, hce]

lemma resolvedPattern_detect_none (ce : List Char → Option (List Char))
    (c : List Char) (cp : Option (List Char))
    (hcp : cp = none ∨ cp = some []) (hd : detect_chapter_pattern c = none) :
    resolvedPattern ce c cp = Except.error SplitError.detectionFailure := by
  rcases hcp with h | h <;> subst h <;>
    simp [resolvedPattern, detectOrFail, hd]

lemma resolvedPattern_error_forms (ce : List Char → Option (List Char))
    (c : List Char) (cp : Option (List Char)) (e : SplitError)
    (h : resolvedPattern ce c cp = Except.error e) :
    (∃ p msg, e = SplitError.invalidPattern msg ∧ cp = some p ∧ p ≠ [] ∧
      ce p = some msg) ∨
    (e = SplitError.detectionFailure ∧ (cp = none ∨ cp = some []) ∧
      detect_chapter_pattern c = none) := by
  cases cp with
  | none =>
      rw [show resolvedPattern ce c none = detectOrFail c from rfl] at h
      unfold detectOrFail at h
      cases hd : detect_chapter_pattern c with
      | some i => rw [hd] at h; cases h
      | none =>
          rw [hd] at h
          injection h with h2
          exact Or.inr ⟨h2.symm, Or.inl rfl, rfl⟩
  | some p =>
      by_cases hp : p = []
      · subst hp
        rw [show resolvedPattern ce c (some ([] : List Char)) =
            detectOrFail c from rfl] at h
        unfold detectOrFail at h
        cases hd : detect_chapter_pattern c with
        | some i => rw [hd] at h; cases h
        | none =>
            rw [hd] at h
            injection h with h2
            exact Or.inr ⟨h2.symm, Or.inr rfl, rfl⟩
      · have hres : resolvedPattern ce c (some p) =
            (match ce p with
             | some e => Except.error (SplitError.invalidPattern e)
             | none => Except.ok p) := by
          simp [resolvedPattern, hp]
        rw [hres] at h
        cases hce : ce p with
        | some msg =>
            rw [hce] at h
            injection h with h2
            exact Or.inl ⟨p, msg, h2.symm, rfl, hp, hce⟩
        | none => rw [hce] at h; cases h

/-- C4 counterexample: the claim fails on the code in two concrete
ways.  Supplying the empty custom pattern (falsy under line 132's
`if custom_pattern:`) routes the run to auto-detection, which raises
the detection-failure error on an undetectable document even though a
custom pattern was supplied; and the compiling custom pattern `x(y)?`
on the document `"x"` — whose single match has `match.groups() ==
(None,)` (truthy) and `group(1) == None`, exactly what `re` produces —
raises an uncaught `AttributeError` at `None.zfill(4)` (line 180), a
fourth fatal case beyond the claimed three. -/
theorem C4_counterexample_empty_pattern_and_none_group :
    (split_chapters (fun _ => none) (fun _ _ => []) true
        "novel.txt".data "zzz".data (some [])).1 =
      Except.error SplitError.detectionFailure ∧
    (split_chapters (fun _ => none)
        (fun _ _ => [⟨0, "x".data, true, none⟩]) true
        "novel.txt".data "x".data (some "x(y)?".data)).1 =
      Except.error SplitError.attributeError :=
  ⟨rfl, rfl⟩

/-- C4 (amended): `split_chapters` fails in exactly four cases —
missing input path; a non-empty custom pattern that does not compile
(reported with the underlying complaint, with no fallback to
detection); auto-detection failure, reachable when no custom pattern
was supplied or when the supplied pattern is the empty string (falsy
under Python truthiness); or a match of the chosen pattern whose
`match.groups()` is non-empty with `group(1) = None` (an optional
capture group that did not participate), which raises `AttributeError`
at `None.zfill(4)`.  With a non-empty custom pattern a detection
failure is impossible, and whenever any fatal error is raised, zero
chapter files have been written. -/
theorem C4_amended_error_cases :
    ∀ (ce : List Char → Option (List Char))
      (fi : List Char → List Char → List PyMatch)
      (ex : Bool) (f c : List Char) (cp : Option (List Char)),
      ((∃ err, (split_chapters ce fi ex f c cp).1 = Except.error err) ↔
        (ex = false ∨
         (∃ p e, cp = some p ∧ p ≠ [] ∧ ce p = some e) ∨
         ((cp = none ∨ cp = some []) ∧ detect_chapter_pattern c = none) ∨
         (∃ p, resolvedPattern ce c cp = Except.ok p ∧
           ∃ m ∈ fi p c, m.has_groups = true ∧ m.group1 = none))) ∧
      (∀ p, cp = some p → p ≠ [] →
        (split_chapters ce fi ex f c cp).1 ≠
          Except.error SplitError.detectionFailure) ∧
      (∀ p e, cp = some p → p ≠ [] → ce p = some e → ex = true →
        (split_chapters ce fi ex f c cp).1 =
          Except.error (SplitError.invalidPattern e)) ∧
      (∀ err, (split_chapters ce fi ex f c cp).1 = Except.error err →
        (split_chapters ce fi ex f c cp).2 = []) := by
  intro ce fi ex f c cp
  cases ex with
  | false =>
      refine ⟨⟨fun _ => Or.inl rfl, fun _ => ?_⟩, fun p hp hpne => ?_,
        fun p e hp hpne hce hex => ?_, fun err herr => ?_⟩
      · exact ⟨SplitError.fileNotFound f, by simp [split_chapters]⟩
      · simp [split_chapters]
      · exact absurd hex (by simp)
      · simp [split_chapters]
  | true =>
      cases hr : resolvedPattern ce c cp with
      | error e =>
          have hsplit : split_chapters ce fi true f c cp =
              (Except.error e, []) := by
            simp [split_chapters, hr]
          rcases resolvedPattern_error_forms ce c cp e hr with
            ⟨p, msg, he, hcp, hpne, hce⟩ | ⟨he, hcp, hd⟩
          · subst he
            refine ⟨⟨fun _ => Or.inr (Or.inl ⟨p, msg, hcp, hpne, hce⟩),
              fun _ => ⟨_, by rw [hsplit]⟩⟩, fun q hq hqne => ?_,
              fun q e2 hq hqne hce2 _ => ?_, fun err herr => by rw [hsplit]⟩
            · rw [hsplit]
              simp
            · rw [hsplit]
              rw [hcp] at hq
              injection hq with h2
              subst h2
              rw [hce] at hce2
              injection hce2 with h3
              rw [h3]
          · subst he
            refine ⟨⟨fun _ => Or.inr (Or.inr (Or.inl ⟨hcp, hd⟩)),
              fun _ => ⟨_, by rw [hsplit]⟩⟩, fun q hq hqne => ?_,
              fun q e2 hq hqne hce2 _ => ?_, fun err herr => by rw [hsplit]⟩
            · rcases hcp with h | h
              · rw [h] at hq; cases hq
              · rw [h] at hq
                injection hq with h2
                exact absurd h2.symm hqne
            · rcases hcp with h | h
              · rw [h] at hq; cases hq
              · rw [h] at hq
                injection hq with h2
                exact absurd h2.symm hqne
      | ok p =>
          cases hb : build_chaptersE c (fi p c) with
          | none =>
              have hsplit : split_chapters ce fi true f c cp =
                  (Except.error SplitError.attributeError, []) := by
                simp [split_chapters, hr, splitWithPattern, hb]
              have hcrash : ∃ m ∈ fi p c,
                  m.has_groups = true ∧ m.group1 = none := by
                rw [build_chaptersE_eq] at hb
                exact (chaptersLoopE_none_iff c (fi p c) 0).mp hb
              refine ⟨⟨fun _ => Or.inr (Or.inr (Or.inr ⟨p, rfl, hcrash⟩)),
                fun _ => ⟨_, by rw [hsplit]⟩⟩, fun q hq hqne => ?_,
                fun q e2 hq hqne hce2 _ => ?_,
                fun err herr => by rw [hsplit]⟩
              · rw [hsplit]
                simp
              · rw [hq, resolvedPattern_compile_err ce c q e2 hqne hce2]
                  at hr
                cases hr
          | some chapters =>
              have hsplit : split_chapters ce fi true f c cp =
                  (Except.ok
                    { pattern_used := p
                      chapters_found := chapters.length
                      files_created := chapters.map Chapter.filename },
                   chapters.map Chapter.filename) := by
                simp [split_chapters, hr, splitWithPattern, hb]
              refine ⟨⟨?_, ?_⟩, fun q hq hqne => ?_,
                fun q e2 hq hqne hce2 _ => ?_, fun err herr => ?_⟩
              · rintro ⟨err, herr⟩
                rw [hsplit] at herr
                cases herr
              · rintro (h | ⟨q, e2, hq, hqne, hce2⟩ | ⟨hcp, hd⟩ |
                  ⟨q, hqok, m, hm, hgm⟩)
                · cases h
                · rw [hq, resolvedPattern_compile_err ce c q e2 hqne hce2]
                    at hr
                  cases hr
                · rw [resolvedPattern_detect_none ce c cp hcp hd] at hr
                  cases hr
                · injection hqok with h2
                  subst h2
                  have hnone := (chaptersLoopE_none_iff c (fi p c) 0).mpr
                    ⟨m, hm, hgm⟩
                  rw [← build_chaptersE_eq, hb] at hnone
                  cases hnone
              · rw [hsplit]
                simp
              · rw [hq, resolvedPattern_compile_err ce c q e2 hqne hce2]
                  at hr
                cases hr
              · rw [hsplit] at herr
                cases herr

/-- Applies C4 (amended), invalid-custom-pattern part, at a concrete
compile oracle: the error carries the compiler's complaint and no
fallback happens. -/
theorem C4_amended_error_cases_witness :
    (split_chapters (fun _ => some "missing ), unterminated subpattern".data)
        (fun _ _ => []) true "novel.txt".data "第一章x".data
        (some "(".data)).1 =
      Except.error
        (SplitError.invalidPattern
          "missing ), unterminated subpattern".data) :=
  (C4_amended_error_cases
      (fun _ => some "missing ), unterminated subpattern".data)
      (fun _ _ => []) true "novel.txt".data "第一章x".data
      (some "(".data)).2.2.1 "(".data
    "missing ), unterminated subpattern".data rfl (by decide) rfl rfl

end SplitNovel
